import Mathlib

/-!
Verification of the `cbeast` matrix module: a shallow embedding of
`src/cbeast/matrix.py` (class `Matrix`) together with proofs of the
specified properties.

Modelling conventions:
* Python floats are modelled as rationals `ℚ`; the CSV inputs exercised
  here involve only exactly-representable values.
* `math.log10` is an uninterpreted parameter `l : ℚ → ℚ`; the code only
  applies it to positive arguments (the `try/except ValueError` branch is
  modelled by the explicit `0 < v` test, since `log10` raises `ValueError`
  exactly on non-positive floats).
* Python `str` applied to a float (in the XML serialisation) is an
  uninterpreted parameter `fstr : ℚ → String`.
* `csv.reader` on the simple comma-separated inputs used by this program
  is modelled by `splitCsv` (split on newlines, then on commas); `float`
  on plain decimal literals is modelled by `parseFloat`, and the parse
  function is otherwise kept abstract as a parameter `parse`.
* Exceptions are modelled by `Except`: `ValueError` during construction
  becomes `MatrixError`, and `KeyError` in the query methods becomes
  `Except String` carrying the offending key.
-/

deriving instance DecidableEq for Except

namespace Cbeast

/-- Characters considered whitespace by `str.strip` (for the inputs in scope). -/
def isWs (c : Char) : Bool := c.isWhitespace

/-- Trim whitespace from both ends of a character list (Python `str.strip`). -/
def charTrim (cs : List Char) : List Char :=
  ((cs.dropWhile isWs).reverse.dropWhile isWs).reverse

/-- Python `str.strip` on a string. -/
def strTrim (s : String) : String :=
  String.mk (charTrim s.data)

/-- Split a character list on a separator character, keeping empty segments. -/
def splitOnChar (sep : Char) : List Char → List (List Char)
  | [] => [[]]
  | c :: rest =>
    match splitOnChar sep rest with
    | [] => if c = sep then [[], []] else [[c]]
    | g :: gs => if c = sep then [] :: g :: gs else (c :: g) :: gs

/-- `csv.reader` on the plain comma-separated text used by this program:
split the text into lines (a trailing newline produces no extra row, an
empty line produces an empty row) and each line into comma-separated
cells. -/
def splitCsv (s : String) : List (List String) :=
  let lines := splitOnChar '\n' s.data
  let lines := if lines.getLast? = some [] then lines.dropLast else lines
  lines.map fun line =>
    if line = [] then [] else (splitOnChar ',' line).map String.mk

/-- Numeric value of a list of decimal digit characters. -/
def digitsVal (cs : List Char) : Nat :=
  cs.foldl (fun acc c => acc * 10 + (c.toNat - 48)) 0

/-- Parse an unsigned decimal literal (digits with an optional fractional
part) as a rational. -/
def parseUnsigned (cs : List Char) : Option ℚ :=
  let intPart := cs.takeWhile Char.isDigit
  let rest := cs.dropWhile Char.isDigit
  match rest with
  | [] =>
    if intPart = [] then none else some (digitsVal intPart)
  | '.' :: frac =>
    if frac.all Char.isDigit ∧ (intPart ≠ [] ∨ frac ≠ []) then
      some ((digitsVal intPart : ℚ) + (digitsVal frac : ℚ) / (10 : ℚ) ^ frac.length)
    else none
  | _ => none

/-- Python `float` on the plain decimal literals this program feeds it:
surrounding whitespace is ignored, an optional sign precedes digits with
an optional fractional part. -/
def parseFloat (s : String) : Option ℚ :=
  match charTrim s.data with
  | [] => none
  | '-' :: rest => (parseUnsigned rest).map (fun q => -q)
  | '+' :: rest => parseUnsigned rest
  | cs => parseUnsigned cs

/-- An insertion-ordered name-to-values mapping (`OrderedDict` of
`str` to `list` of values). -/
abbrev Table := List (String × List ℚ)

/-- The keys of a table, in insertion order. -/
def keysOf (t : Table) : List String := t.map Prod.fst

/-- The validated matrix: the two ordered mappings built by
`Matrix.__init__` (`self.taxa` and `self.features`). -/
structure Matrix where
  taxa : Table
  features : Table
deriving DecidableEq, Repr

/-- The `ValueError`s raised by `Matrix.__init__`. -/
inductive MatrixError where
  | dupFeature (name : String)
  | fieldCount (row : Nat) (got : Int) (want : Nat)
  | dupTaxon (name : String)
  | parseFail (literal : String)
  | noFeatures
  | noTaxa
deriving DecidableEq, Repr

/-- A single apostrophe character, as used by Python `%r` on a string. -/
def quoteChar : String := String.mk [Char.ofNat 39]

/-- The message of each `ValueError` raised by `Matrix.__init__`. -/
def MatrixError.message : MatrixError → String
  | .dupFeature n =>
    "Feature name " ++ quoteChar ++ n ++ quoteChar ++ " appears more than once"
  | .fieldCount row got want =>
    "Input row " ++ toString row ++ " contains " ++ toString got ++
      " value fields, but there were " ++ toString want ++
      " feature (column) headers"
  | .dupTaxon n =>
    "Taxa name " ++ quoteChar ++ n ++ quoteChar ++ " appears more than once"
  | .parseFail lit => "could not convert string to float: " ++ lit
  | .noFeatures => "No input CSV data found."
  | .noTaxa => "No taxa (rows) found in input CSV."

/-- Processing of the header row: each cell after the first, stripped,
becomes a feature with an empty value list; a repeated feature name
raises. -/
def addFeatures (acc : Table) : List String → Except MatrixError Table
  | [] => .ok acc
  | n :: rest =>
    if (keysOf acc).contains n then .error (.dupFeature n)
    else addFeatures (acc ++ [(n, [])]) rest

/-- The header phase of `Matrix.__init__`: with no rows at all no features
are declared; otherwise the first row's cells after the first, stripped,
are declared in order. -/
def headerFeatures : List (List String) → Except MatrixError Table
  | [] => .ok []
  | header :: _ => addFeatures [] ((header.drop 1).map strTrim)

/-- `map(float, cells)` consumed left to right: the first cell that fails
to parse raises with that literal. -/
def parseVals (parse : String → Option ℚ) : List String → Except MatrixError (List ℚ)
  | [] => .ok []
  | c :: rest =>
    match parse c with
    | none => .error (.parseFail c)
    | some v =>
      match parseVals parse rest with
      | .error e => .error e
      | .ok vs => .ok (v :: vs)

/-- `for featureName, value in zip(features, values): features[featureName].append(value)`:
the i-th feature's list receives the i-th value (feature names are unique
once constructed, so the keyed update is positional); unpaired features
are left unchanged, unpaired values are ignored. -/
def zipAppend : Table → List ℚ → Table
  | fs, [] => fs
  | [], _ => []
  | (n, vs) :: fs, v :: ws => (n, vs ++ [v]) :: zipAppend fs ws

/-- Processing of one data row of `Matrix.__init__`: the field-count check
(Python integer arithmetic, so an empty row has `-1` value fields), the
duplicate-taxon check on the stripped first cell, then the parse of the
value cells and the appends to both mappings. -/
def addRow (parse : String → Option ℚ) (features taxa : Table) (rowNum : Nat)
    (fields : List String) : Except MatrixError (Table × Table) :=
  if (fields.length : Int) - 1 ≠ (features.length : Int) then
    .error (.fieldCount rowNum ((fields.length : Int) - 1) features.length)
  else
    let taxaName := strTrim (fields.headD "")
    if (keysOf taxa).contains taxaName then .error (.dupTaxon taxaName)
    else
      match parseVals parse (fields.drop 1) with
      | .error e => .error e
      | .ok vals => .ok (zipAppend features vals, taxa ++ [(taxaName, vals)])

/-- The data-row loop of `Matrix.__init__`, threading the two mappings and
the 1-based row number (the header was row 1). -/
def processData (parse : String → Option ℚ) :
    Table → Table → Nat → List (List String) → Except MatrixError (Table × Table)
  | features, taxa, _, [] => .ok (features, taxa)
  | features, taxa, rowNum, r :: rest =>
    match addRow parse features taxa rowNum r with
    | .error e => .error e
    | .ok (f', t') => processData parse f' t' (rowNum + 1) rest

/-- `Matrix.__init__` on a list of CSV rows: header phase, data-row loop,
then the two emptiness checks (no features declared, then no taxa). -/
def mkMatrix (parse : String → Option ℚ) (rows : List (List String)) :
    Except MatrixError Matrix :=
  match headerFeatures rows with
  | .error e => .error e
  | .ok features0 =>
    match processData parse features0 [] 2 (rows.drop 1) with
    | .error e => .error e
    | .ok (features, taxa) =>
      if features.isEmpty then .error .noFeatures
      else if taxa.isEmpty then .error .noTaxa
      else .ok ⟨taxa, features⟩

/-- The per-value scaling of `Matrix.distanceMatrix` when `logged` is
true: `log10(value)`, with the `ValueError` on a non-positive argument
caught and replaced by `0.0`. -/
def scaleVal (l : ℚ → ℚ) (v : ℚ) : ℚ := if 0 < v then l v else 0

/-- `Matrix.distanceMatrix`: an unknown feature name raises `KeyError`
(modelled as `Except.error` carrying the name); otherwise the feature's
values are scaled (logged or raw), associated to the taxa in order
(`dict(zip(self.taxa, scaledvalues))`), and the square matrix of pairwise
differences over the taxon order is returned. -/
def distanceMatrix (l : ℚ → ℚ) (m : Matrix) (featureName : String)
    (logged : Bool) : Except String (List (List ℚ)) :=
  match m.features.lookup featureName with
  | none => .error featureName
  | some raw =>
    let scaledvalues := if logged then raw.map (scaleVal l) else raw
    let values := (keysOf m.taxa).zip scaledvalues
    .ok ((keysOf m.taxa).map fun taxaName1 =>
      (keysOf m.taxa).map fun taxaName2 =>
        (values.lookup taxaName1).getD 0 - (values.lookup taxaName2).getD 0)

/-- `Matrix.upperDiagonal`: the distance matrix entries `dm[row][col]` for
`row` in `range(nTaxa)` and `col` in `range(row + 1, nTaxa)`, flattened in
that nested order. -/
def upperDiagonal (l : ℚ → ℚ) (m : Matrix) (featureName : String)
    (logged : Bool) : Except String (List ℚ) :=
  match distanceMatrix l m featureName logged with
  | .error e => .error e
  | .ok dm =>
    let nTaxa := m.taxa.length
    .ok (((List.range nTaxa).map fun row =>
      (List.range' (row + 1) (nTaxa - (row + 1))).map fun col =>
        (dm.getD row []).getD col 0).flatten)

/-- A node of the `xml.etree.ElementTree` output: an element with a tag,
optional text and ordered children, or a comment. -/
inductive XNode where
  | element (tag : String) (text : Option String) (children : List XNode)
  | comment (text : String)

/-- `Matrix.upperDiagonalAsXML`: an element named `elementName` with one
`value` child per upper-diagonal entry, the child's text being `str` of
the value. -/
def upperDiagonalAsXML (l : ℚ → ℚ) (fstr : ℚ → String) (m : Matrix)
    (featureName : String) (elementName : String) (logged : Bool) :
    Except String XNode :=
  match upperDiagonal l m featureName logged with
  | .error e => .error e
  | .ok ud =>
    .ok (.element elementName none
      (ud.map fun v => .element "value" (some (fstr v)) []))

/-- Left-to-right effectful map over `Except`, mirroring a Python loop
that may raise at each element. -/
def exceptMap {α β : Type} (f : α → Except String β) :
    List α → Except String (List β)
  | [] => .ok []
  | x :: xs =>
    match f x with
    | .error e => .error e
    | .ok y =>
      match exceptMap f xs with
      | .error e => .error e
      | .ok ys => .ok (y :: ys)

/-- `Matrix.allFeaturesAsXML`: an element named `elementName` whose
children are, per declared feature in order, a comment holding the
feature's name followed by that feature's `upperDiagonalAsXML` with
element name `feature`. -/
def allFeaturesAsXML (l : ℚ → ℚ) (fstr : ℚ → String) (m : Matrix)
    (elementName : String) (logged : Bool) : Except String XNode :=
  match exceptMap
      (fun p =>
        match upperDiagonalAsXML l fstr m p.1 "feature" logged with
        | .error e => .error e
        | .ok child => .ok [XNode.comment p.1, child])
      m.features with
  | .error e => .error e
  | .ok childLists => .ok (.element elementName none childLists.flatten)

/-- The value list of `upperDiagonal` when it succeeds (and `[]` when the
feature is unknown); used to state the shape of `allFeaturesAsXML`. -/
def upperDiagonalVals (l : ℚ → ℚ) (m : Matrix) (featureName : String)
    (logged : Bool) : List ℚ :=
  match upperDiagonal l m featureName logged with
  | .error _ => []
  | .ok ud => ud

/-- All index pairs of an n-by-n matrix, enumerated in row-major order. -/
def squarePairs (n : Nat) : List (Nat × Nat) :=
  (List.range n).flatMap fun i => (List.range n).map fun j => (i, j)

/-- The structural invariant `Matrix.__init__` establishes: unique feature
and taxon names, each feature holding one value per taxon and each taxon
one value per feature, and the two mappings agreeing as views of one grid. -/
def GoodTables (features taxa : Table) : Prop :=
  (keysOf features).Nodup ∧ (keysOf taxa).Nodup ∧
  (∀ p ∈ features, p.2.length = taxa.length) ∧
  (∀ p ∈ taxa, p.2.length = features.length) ∧
  (∀ (i j : Nat) (pi pj : String × List ℚ),
    taxa[i]? = some pi → features[j]? = some pj → pi.2[j]? = pj.2[i]?)

/-- The worked example input from the specification. -/
def exampleCsv : String := "Ignored, A, B\nname1, 3, 4\nname2, 5, 6\n"

/-- The matrix the worked example constructs. -/
def exampleMatrix : Matrix :=
  ⟨[("name1", [3, 4]), ("name2", [5, 6])],
   [("A", [3, 5]), ("B", [4, 6])]⟩

theorem contains_iff (l : List String) (a : String) :
    l.contains a = true ↔ a ∈ l := by
  simp [List.contains, List.elem_iff]

theorem lookup_eq_none_iff :
    ∀ (t : Table) (k : String), t.lookup k = none ↔ k ∉ keysOf t
  | [], k => by simp [keysOf]
  | (a, b) :: rest, k => by
    by_cases h : k = a
    · subst h
      simp [List.lookup, keysOf]
    · have hb : (k == a) = false := by
        simpa using h
      simp [List.lookup, hb, keysOf, h, lookup_eq_none_iff rest k]

theorem lookup_mem :
    ∀ (t : Table) (k : String) (v : List ℚ), t.lookup k = some v → (k, v) ∈ t
  | [], k, v => by simp [List.lookup]
  | (a, b) :: rest, k, v => by
    by_cases h : k = a
    · subst h
      simp only [List.lookup, beq_self_eq_true]
      intro hv
      cases hv
      simp
    · have hb : (k == a) = false := by simpa using h
      simp only [List.lookup, hb]
      intro hv
      exact List.mem_cons_of_mem _ (lookup_mem rest k v hv)

theorem mem_lookup_nodup :
    ∀ (t : Table) (k : String) (v : List ℚ),
      (keysOf t).Nodup → (k, v) ∈ t → t.lookup k = some v
  | [], k, v => by simp
  | (a, b) :: rest, k, v => by
    intro hnd hmem
    have hnd2 : (a :: keysOf rest).Nodup := by simpa [keysOf] using hnd
    rcases List.nodup_cons.mp hnd2 with ⟨hna, hnd'⟩
    rcases List.mem_cons.mp hmem with heq | htail
    · cases heq
      simp [List.lookup]
    · have hka : k ≠ a := by
        rintro rfl
        exact hna (by simpa [keysOf] using List.mem_map_of_mem Prod.fst htail)
      have hb : (k == a) = false := by simpa using hka
      simp only [List.lookup, hb]
      exact mem_lookup_nodup rest k v hnd' htail

theorem lookup_zip_getElem :
    ∀ (ks : List String) (vs : List ℚ) (i : Nat) (k : String) (v : ℚ),
      ks.Nodup → ks[i]? = some k → vs[i]? = some v →
      (ks.zip vs).lookup k = some v
  | [], _, i, k, v => by simp
  | _ :: _, [], i, k, v => by simp
  | k0 :: ks, v0 :: vs, 0, k, v => by
    intro _ hk hv
    simp only [List.getElem?_cons_zero, Option.some.injEq] at hk hv
    subst hk; subst hv
    simp [List.zip, List.lookup]
  | k0 :: ks, v0 :: vs, i + 1, k, v => by
    intro hnd hk hv
    simp only [List.getElem?_cons_succ] at hk hv
    rcases List.nodup_cons.mp hnd with ⟨hk0, hnd'⟩
    have hkmem : k ∈ ks := List.mem_iff_getElem?.mpr ⟨i, hk⟩
    have hne : k ≠ k0 := by
      rintro rfl
      exact hk0 hkmem
    have hb : (k == k0) = false := by simpa using hne
    simp only [List.zip_cons_cons, List.lookup, hb]
    exact lookup_zip_getElem ks vs i k v hnd' hk hv

theorem parseVals_length (parse : String → Option ℚ) :
    ∀ (cells : List String) (vs : List ℚ),
      parseVals parse cells = .ok vs → vs.length = cells.length
  | [], vs => by
    intro h
    simp [parseVals] at h
    simp [← h]
  | c :: rest, vs => by
    intro h
    simp only [parseVals] at h
    cases hc : parse c with
    | none => rw [hc] at h; cases h
    | some v =>
      rw [hc] at h
      cases hr : parseVals parse rest with
      | error e => rw [hr] at h; cases h
      | ok ws =>
        rw [hr] at h
        cases h
        simp [parseVals_length parse rest ws hr]

theorem zipAppend_keys : ∀ (fs : Table) (ws : List ℚ),
    keysOf (zipAppend fs ws) = keysOf fs
  | fs, [] => by cases fs <;> simp [zipAppend]
  | [], _ :: _ => by simp [zipAppend]
  | (n, vs) :: fs, w :: ws => by
    simp [zipAppend, keysOf] at *
    simpa [keysOf] using zipAppend_keys fs ws

theorem zipAppend_length (fs : Table) (ws : List ℚ) :
    (zipAppend fs ws).length = fs.length := by
  have := congrArg List.length (zipAppend_keys fs ws)
  simpa [keysOf] using this

theorem zipAppend_nil : ∀ (ws : List ℚ), zipAppend [] ws = []
  | [] => rfl
  | _ :: _ => rfl

theorem zipAppend_getElem :
    ∀ (fs : Table) (ws : List ℚ) (j : Nat) (p : String × List ℚ) (w : ℚ),
      fs[j]? = some p → ws[j]? = some w →
      (zipAppend fs ws)[j]? = some (p.1, p.2 ++ [w])
  | [], ws, j, p, w => by simp
  | _ :: _, [], j, p, w => by simp
  | (n, vs) :: fs, v :: ws, 0, p, w => by
    intro hp hw
    simp only [List.getElem?_cons_zero, Option.some.injEq] at hp hw
    subst hp; subst hw
    simp [zipAppend]
  | (n, vs) :: fs, v :: ws, j + 1, p, w => by
    intro hp hw
    simp only [List.getElem?_cons_succ] at hp hw
    simpa [zipAppend] using zipAppend_getElem fs ws j p w hp hw

theorem zipAppend_mem (fs : Table) (ws : List ℚ)
    (hlen : ws.length = fs.length) :
    ∀ q ∈ zipAppend fs ws, ∃ p ∈ fs, ∃ w, q = (p.1, p.2 ++ [w]) := by
  intro q hq
  rcases List.mem_iff_getElem?.mp hq with ⟨j, hj⟩
  have hjlt : j < fs.length := by
    have := List.getElem?_eq_some_iff.mp hj
    rcases this with ⟨hlt, _⟩
    simpa [zipAppend_length] using hlt
  have hp : ∃ p, fs[j]? = some p :=
    ⟨fs[j], by simp [List.getElem?_eq_some_iff, hjlt]⟩
  rcases hp with ⟨p, hp⟩
  have hjw : j < ws.length := by omega
  have hw : ∃ w, ws[j]? = some w :=
    ⟨ws[j], by simp [List.getElem?_eq_some_iff, hjw]⟩
  rcases hw with ⟨w, hw⟩
  have := zipAppend_getElem fs ws j p w hp hw
  rw [this] at hj
  cases hj
  exact ⟨p, List.mem_iff_getElem?.mpr ⟨j, hp⟩, w, rfl⟩

theorem addRow_ok {parse : String → Option ℚ} {fs ts : Table} {rn : Nat}
    {r : List String} {out : Table × Table}
    (h : addRow parse fs ts rn r = .ok out) :
    ∃ vals, parseVals parse (r.drop 1) = .ok vals ∧
      (r.length : Int) - 1 = (fs.length : Int) ∧
      strTrim (r.headD "") ∉ keysOf ts ∧
      out = (zipAppend fs vals, ts ++ [(strTrim (r.headD ""), vals)]) := by
  rw [addRow] at h
  by_cases hc : (r.length : Int) - 1 ≠ (fs.length : Int)
  · rw [if_pos hc] at h
    cases h
  · rw [if_neg hc] at h
    by_cases hd : (keysOf ts).contains (strTrim (r.headD "")) = true
    · rw [if_pos hd] at h
      cases h
    · rw [if_neg hd] at h
      cases hp : parseVals parse (r.drop 1) with
      | error e => rw [hp] at h; cases h
      | ok vals =>
        rw [hp] at h
        cases h
        refine ⟨vals, rfl, not_not.mp hc, ?_, rfl⟩
        intro hmem
        exact hd ((contains_iff _ _).mpr hmem)

theorem addRow_vals_length {parse : String → Option ℚ} {fs : Table}
    {r : List String} {vals : List ℚ}
    (hp : parseVals parse (r.drop 1) = .ok vals)
    (hc : (r.length : Int) - 1 = (fs.length : Int)) :
    vals.length = fs.length := by
  have h1 : vals.length = (r.drop 1).length := parseVals_length parse _ _ hp
  have h2 : (r.drop 1).length = r.length - 1 := by simp
  omega

theorem parseVals_error_shape (parse : String → Option ℚ) :
    ∀ (cells : List String) (e : MatrixError),
      parseVals parse cells = .error e → ∃ s, e = .parseFail s
  | [], e => by simp [parseVals]
  | c :: rest, e => by
    intro h
    simp only [parseVals] at h
    cases hcp : parse c with
    | none =>
      rw [hcp] at h
      cases h
      exact ⟨c, rfl⟩
    | some v =>
      rw [hcp] at h
      cases hr : parseVals parse rest with
      | error e'' =>
        rw [hr] at h
        cases h
        exact parseVals_error_shape parse rest e hr
      | ok vs => rw [hr] at h; cases h

theorem addRow_error_shape {parse : String → Option ℚ} {fs ts : Table}
    {rn : Nat} {r : List String} {e : MatrixError}
    (h : addRow parse fs ts rn r = .error e) :
    (∃ a b c, e = .fieldCount a b c) ∨ (∃ n, e = .dupTaxon n) ∨
      (∃ s, e = .parseFail s) := by
  rw [addRow] at h
  by_cases hc : (r.length : Int) - 1 ≠ (fs.length : Int)
  · rw [if_pos hc] at h
    cases h
    exact Or.inl ⟨_, _, _, rfl⟩
  · rw [if_neg hc] at h
    by_cases hd : (keysOf ts).contains (strTrim (r.headD "")) = true
    · rw [if_pos hd] at h
      cases h
      exact Or.inr (Or.inl ⟨_, rfl⟩)
    · rw [if_neg hd] at h
      cases hp : parseVals parse (r.drop 1) with
      | error e' =>
        rw [hp] at h
        cases h
        exact Or.inr (Or.inr (parseVals_error_shape parse _ _ hp))
      | ok vals => rw [hp] at h; cases h

theorem addRow_good {parse : String → Option ℚ} {fs ts fs' ts' : Table}
    {rn : Nat} {r : List String}
    (hg : GoodTables fs ts) (h : addRow parse fs ts rn r = .ok (fs', ts')) :
    GoodTables fs' ts' ∧ keysOf fs' = keysOf fs := by
  obtain ⟨vals, hp, hc, hfresh, hout⟩ := addRow_ok h
  obtain ⟨hndf, hndt, hflen, htlen, hgrid⟩ := hg
  have hvlen : vals.length = fs.length := addRow_vals_length hp hc
  cases hout
  set name := strTrim (r.headD "") with hname
  have hkeys : keysOf (zipAppend fs vals) = keysOf fs := zipAppend_keys fs vals
  refine ⟨⟨?_, ?_, ?_, ?_, ?_⟩, hkeys⟩
  · rw [hkeys]; exact hndf
  · have : keysOf (ts ++ [(name, vals)]) = keysOf ts ++ [name] := by
      simp [keysOf]
    rw [this]
    simp only [List.nodup_append]
    exact ⟨hndt, List.nodup_singleton name, by
      intro a ha hb
      simp only [List.mem_singleton] at hb
      subst hb
      exact hfresh ha⟩
  · intro p hp'
    rcases zipAppend_mem fs vals hvlen p hp' with ⟨q, hq, w, rfl⟩
    simp only [List.length_append]
    have := hflen q hq
    simp [this]
  · intro p hp'
    rcases List.mem_append.mp hp' with hold | hnew
    · have := htlen p hold
      rw [this]
      have := congrArg List.length hkeys
      simpa [keysOf] using this.symm
    · simp only [List.mem_singleton] at hnew
      subst hnew
      have := congrArg List.length hkeys
      simp only [keysOf, List.length_map] at this
      simpa [this] using hvlen
  · intro i j pi pj hpi hpj
    have hjlt : j < fs.length := by
      have := List.getElem?_eq_some_iff.mp hpj
      rcases this with ⟨hlt, _⟩
      simpa [zipAppend_length] using hlt
    have hjv : j < vals.length := by omega
    have hq : fs[j]? = some fs[j] := by simp [List.getElem?_eq_some_iff, hjlt]
    have hw : vals[j]? = some vals[j] := by
      simp [List.getElem?_eq_some_iff, hjv]
    have hpj' := zipAppend_getElem fs vals j fs[j] vals[j] hq hw
    rw [hpj'] at hpj
    cases hpj
    have hqlen : fs[j].2.length = ts.length := hflen _ (by simp [hjlt])
    by_cases hi : i < ts.length
    · rw [List.getElem?_append_left hi] at hpi
      have hpi' : ts[i]? = some pi := hpi
      have hgr := hgrid i j pi fs[j] hpi' hq
      rw [hgr]
      have : fs[j].2[i]? = (fs[j].2 ++ [vals[j]])[i]? := by
        rw [List.getElem?_append_left (by omega)]
      simpa using this
    · by_cases hieq : i = ts.length
      · subst hieq
        rw [List.getElem?_append_right (le_refl _)] at hpi
        simp only [Nat.sub_self, List.getElem?_cons_zero, Option.some.injEq] at hpi
        subst hpi
        have h1 : (vals : List ℚ)[j]? = some vals[j] := hw
        have h2 : (fs[j].2 ++ [vals[j]])[ts.length]? = some vals[j] := by
          have := List.getElem?_concat_length fs[j].2 vals[j]
          rwa [hqlen] at this
        simp [h1, h2]
      · have : ts.length + 1 ≤ i := by omega
        have hnone : (ts ++ [(name, vals)])[i]? = none := by
          apply List.getElem?_eq_none
          simp only [List.length_append, List.length_singleton]
          omega
        rw [hnone] at hpi
        cases hpi

theorem processData_good {parse : String → Option ℚ} :
    ∀ {rows : List (List String)} {fs ts fs' ts' : Table} {rn : Nat},
      GoodTables fs ts → processData parse fs ts rn rows = .ok (fs', ts') →
      GoodTables fs' ts' ∧ keysOf fs' = keysOf fs := by
  intro rows
  induction rows with
  | nil =>
    intro fs ts fs' ts' rn hg h
    simp only [processData] at h
    cases h
    exact ⟨hg, rfl⟩
  | cons r rest ih =>
    intro fs ts fs' ts' rn hg h
    simp only [processData] at h
    cases ha : addRow parse fs ts rn r with
    | error e => rw [ha] at h; cases h
    | ok out =>
      rw [ha] at h
      obtain ⟨f1, t1⟩ := out
      obtain ⟨hg1, hk1⟩ := addRow_good hg ha
      obtain ⟨hg2, hk2⟩ := ih hg1 h
      exact ⟨hg2, hk2.trans hk1⟩

theorem addFeatures_good :
    ∀ (names : List String) (acc out : Table),
      (keysOf acc).Nodup → (∀ p ∈ acc, p.2 = ([] : List ℚ)) →
      addFeatures acc names = .ok out →
      (keysOf out).Nodup ∧ ∀ p ∈ out, p.2 = ([] : List ℚ)
  | [], acc, out => by
    intro hnd hemp h
    simp only [addFeatures] at h
    cases h
    exact ⟨hnd, hemp⟩
  | n :: rest, acc, out => by
    intro hnd hemp h
    simp only [addFeatures] at h
    by_cases hc : (keysOf acc).contains n = true
    · rw [if_pos hc] at h
      cases h
    · rw [if_neg hc] at h
      have hnn : n ∉ keysOf acc := fun hm => hc ((contains_iff _ _).mpr hm)
      refine addFeatures_good rest (acc ++ [(n, [])]) out ?_ ?_ h
      · have : keysOf (acc ++ [(n, [])]) = keysOf acc ++ [n] := by simp [keysOf]
        rw [this]
        simp only [List.nodup_append]
        exact ⟨hnd, List.nodup_singleton n, by
          intro a ha hb
          simp only [List.mem_singleton] at hb
          subst hb
          exact hnn ha⟩
      · intro p hp
        rcases List.mem_append.mp hp with hold | hnew
        · exact hemp p hold
        · simp only [List.mem_singleton] at hnew
          subst hnew
          rfl

theorem headerFeatures_good {rows : List (List String)} {fs0 : Table}
    (h : headerFeatures rows = .ok fs0) : GoodTables fs0 [] := by
  have hbase : (keysOf fs0).Nodup ∧ ∀ p ∈ fs0, p.2 = ([] : List ℚ) := by
    cases rows with
    | nil =>
      simp only [headerFeatures] at h
      cases h
      simp [keysOf]
    | cons header rest =>
      simp only [headerFeatures] at h
      exact addFeatures_good _ [] fs0 (by simp [keysOf]) (by simp) h
  obtain ⟨hnd, hemp⟩ := hbase
  refine ⟨hnd, by simp [keysOf], ?_, by simp, ?_⟩
  · intro p hp
    simp [hemp p hp]
  · intro i j pi pj hpi hpj
    simp at hpi

theorem mkMatrix_good {parse : String → Option ℚ} {rows : List (List String)}
    {m : Matrix} (h : mkMatrix parse rows = .ok m) :
    GoodTables m.features m.taxa ∧ m.features ≠ [] ∧ m.taxa ≠ [] ∧
      ∃ fs0, headerFeatures rows = .ok fs0 ∧
        processData parse fs0 [] 2 (rows.drop 1) = .ok (m.features, m.taxa) := by
  rw [mkMatrix] at h
  cases hh : headerFeatures rows with
  | error e => rw [hh] at h; cases h
  | ok fs0 =>
    simp only [hh] at h
    cases hp : processData parse fs0 [] 2 (rows.drop 1) with
    | error e => rw [hp] at h; cases h
    | ok out =>
      simp only [hp] at h
      obtain ⟨features, taxa⟩ := out
      by_cases hfe : features.isEmpty = true
      · rw [if_pos hfe] at h
        cases h
      · rw [if_neg hfe] at h
        by_cases hte : taxa.isEmpty = true
        · rw [if_pos hte] at h
          cases h
        · rw [if_neg hte] at h
          cases h
          obtain ⟨hg, _⟩ := processData_good (headerFeatures_good hh) hp
          refine ⟨hg, ?_, ?_, fs0, rfl, by simpa using hp⟩
          · intro hnil
            simp only at hnil
            exact hfe (by simp [hnil])
          · intro hnil
            simp only at hnil
            exact hte (by simp [hnil])

theorem distanceMatrix_ok_entries (l : ℚ → ℚ) (m : Matrix)
    (featureName : String) (logged : Bool) (raw : List ℚ)
    (hnd : (keysOf m.taxa).Nodup) (hlen : raw.length = m.taxa.length)
    (hlook : m.features.lookup featureName = some raw) :
    ∃ dm, distanceMatrix l m featureName logged = .ok dm ∧
      dm.length = m.taxa.length ∧
      (∀ r ∈ dm, r.length = m.taxa.length) ∧
      ∀ i j, i < m.taxa.length → j < m.taxa.length →
        (dm.getD i []).getD j 0 =
          (if logged then raw.map (scaleVal l) else raw).getD i 0 -
            (if logged then raw.map (scaleVal l) else raw).getD j 0 := by
  set sv := if logged then raw.map (scaleVal l) else raw with hsv
  have hsvlen : sv.length = m.taxa.length := by
    rw [hsv]
    cases logged <;> simp [hlen]
  set look : String → ℚ :=
    fun t => (((keysOf m.taxa).zip sv).lookup t).getD 0 with hlookfn
  set dm := (keysOf m.taxa).map fun t1 => (keysOf m.taxa).map fun t2 =>
    look t1 - look t2 with hdm
  have hkeyslen : (keysOf m.taxa).length = m.taxa.length := by simp [keysOf]
  refine ⟨dm, ?_, by simp [hdm, hkeyslen], ?_, ?_⟩
  · rw [distanceMatrix, hlook]
  · intro r hr
    rw [hdm] at hr
    rcases List.mem_map.mp hr with ⟨t1, _, rfl⟩
    simp [hkeyslen]
  · intro i j hi hj
    have hik : i < (keysOf m.taxa).length := by omega
    have hjk : j < (keysOf m.taxa).length := by omega
    have hisv : i < sv.length := by omega
    have hjsv : j < sv.length := by omega
    have hki : (keysOf m.taxa)[i]? = some (keysOf m.taxa)[i] := by
      simp [List.getElem?_eq_some_iff, hik]
    have hkj : (keysOf m.taxa)[j]? = some (keysOf m.taxa)[j] := by
      simp [List.getElem?_eq_some_iff, hjk]
    have hsvi : sv[i]? = some sv[i] := by
      simp [List.getElem?_eq_some_iff, hisv]
    have hsvj : sv[j]? = some sv[j] := by
      simp [List.getElem?_eq_some_iff, hjsv]
    have hli : look (keysOf m.taxa)[i] = sv[i] := by
      have hl := lookup_zip_getElem _ _ i _ _ hnd hki hsvi
      simp only [hlookfn]
      rw [hl]
      rfl
    have hlj : look (keysOf m.taxa)[j] = sv[j] := by
      have hl := lookup_zip_getElem _ _ j _ _ hnd hkj hsvj
      simp only [hlookfn]
      rw [hl]
      rfl
    have hdmi : dm.getD i [] = (keysOf m.taxa).map fun t2 =>
        look (keysOf m.taxa)[i] - look t2 := by
      rw [hdm]
      rw [List.getD_eq_getElem?_getD, List.getElem?_map, hki]
      rfl
    rw [hdmi, List.getD_eq_getElem?_getD, List.getElem?_map, hkj]
    simp only [Option.map_some', Option.getD_some]
    rw [hli, hlj]
    have hri : sv.getD i 0 = sv[i] := by
      rw [List.getD_eq_getElem?_getD, hsvi]; rfl
    have hrj : sv.getD j 0 = sv[j] := by
      rw [List.getD_eq_getElem?_getD, hsvj]; rfl
    rw [hri, hrj]

theorem range_filter_lt (i : Nat) :
    ∀ n : Nat, (List.range n).filter (fun j => decide (i < j)) =
      List.range' (i + 1) (n - (i + 1)) := by
  intro n
  induction n with
  | zero => simp
  | succ n ih =>
    rw [List.range_succ, List.filter_append, ih]
    by_cases hin : i < n
    · have hd : decide (i < n) = true := by simpa using hin
      have hstep : n - (i + 1) + 1 = n + 1 - (i + 1) := by omega
      have hend : (i + 1) + 1 * (n - (i + 1)) = n := by omega
      rw [← hstep, List.range'_concat, hend]
      simp [hd]
    · have hd : decide (i < n) = false := by simpa using hin
      have h1 : n - (i + 1) = 0 := by omega
      have h2 : n + 1 - (i + 1) = 0 := by omega
      simp [hd, h1, h2]

theorem filter_map_pairs (i : Nat) (n : Nat) :
    ((List.range n).map (fun j => (i, j))).filter (fun p => decide (p.1 < p.2)) =
      ((List.range n).filter (fun j => decide (i < j))).map (fun j => (i, j)) := by
  induction n with
  | zero => simp
  | succ n ih =>
    rw [List.range_succ, List.map_append, List.filter_append, ih,
      List.filter_append, List.map_append]
    congr 1
    by_cases h : i < n <;> simp [List.filter, h]

theorem sum_map_succ_shift :
    ∀ (l : List Nat) (f g : Nat → Nat), (∀ x ∈ l, f x = g x + 1) →
      (l.map f).sum = (l.map g).sum + l.length
  | [], f, g => by simp
  | x :: rest, f, g => by
    intro h
    have hx := h x (by simp)
    have hrest := sum_map_succ_shift rest f g fun y hy => h y (by simp [hy])
    simp only [List.map_cons, List.sum_cons, List.length_cons, hx, hrest]
    omega

theorem sum_range_desc :
    ∀ n : Nat, ((List.range n).map (fun r => n - (r + 1))).sum =
      (List.range n).sum := by
  intro n
  induction n with
  | zero => simp
  | succ n ih =>
    rw [List.range_succ, List.map_append, List.sum_append]
    have hlast : ((List.range 1).map fun r => n + 1 - (n + r + 1)).sum = 0 := by
      simp
    have h1 : ([n].map fun r => n + 1 - (r + 1)).sum = 0 := by simp
    have h2 : ((List.range n).map fun r => n + 1 - (r + 1)).sum =
        ((List.range n).map fun r => n - r).sum := by
      congr 1
      apply List.map_congr_left
      intro x hx
      omega
    have h3 : ((List.range n).map fun r => n - r).sum =
        ((List.range n).map fun r => n - (r + 1)).sum + n := by
      have := sum_map_succ_shift (List.range n) (fun r => n - r)
        (fun r => n - (r + 1)) ?_
      · simpa [List.length_range] using this
      · intro x hx
        have hxn : x < n := List.mem_range.mp hx
        show n - x = n - (x + 1) + 1
        omega
    rw [h1, h2, h3, ih, List.sum_append]
    simp

theorem sum_range_gauss : ∀ n : Nat, (List.range n).sum * 2 = n * (n - 1) := by
  intro n
  induction n with
  | zero => simp
  | succ n ih =>
    rw [List.range_succ, List.sum_append]
    simp only [List.sum_cons, List.sum_nil, Nat.add_zero]
    rw [Nat.add_mul, ih]
    cases n with
    | zero => simp
    | succ k =>
      have h1 : k + 1 + 1 - 1 = k + 1 := by omega
      have h2 : k + 1 - 1 = k := by omega
      rw [h1, h2]
      ring

theorem exceptMap_ok_of_forall {α β : Type} (f : α → Except String β)
    (g : α → β) :
    ∀ (xs : List α), (∀ x ∈ xs, f x = .ok (g x)) →
      exceptMap f xs = .ok (xs.map g)
  | [] => by simp [exceptMap]
  | x :: rest => by
    intro h
    have hx := h x (by simp)
    have hrest := exceptMap_ok_of_forall f g rest fun y hy => h y (by simp [hy])
    simp [exceptMap, hx, hrest]

theorem exceptMap_exists_ok {α β : Type} (f : α → Except String β) :
    ∀ (xs : List α), (∀ x ∈ xs, ∃ y, f x = .ok y) →
      ∃ ys, exceptMap f xs = .ok ys
  | [] => by
    intro _
    exact ⟨[], rfl⟩
  | x :: rest => by
    intro h
    obtain ⟨y, hy⟩ := h x (by simp)
    obtain ⟨ys, hys⟩ := exceptMap_exists_ok f rest fun z hz => h z (by simp [hz])
    exact ⟨y :: ys, by simp [exceptMap, hy, hys]⟩

theorem flatten_upper_eq (n : Nat) (e : Nat → Nat → ℚ) :
    ((List.range n).map fun row =>
      (List.range' (row + 1) (n - (row + 1))).map fun col => e row col).flatten =
    ((squarePairs n).filter fun p => decide (p.1 < p.2)).map fun p =>
      e p.1 p.2 := by
  have hL : ((List.range n).map fun row =>
      (List.range' (row + 1) (n - (row + 1))).map fun col => e row col).flatten =
      (List.range n).flatMap fun row =>
        (List.range' (row + 1) (n - (row + 1))).map fun col => e row col := by
    rw [List.flatten_eq_flatMap, List.flatMap_map]
    rfl
  rw [hL, squarePairs, List.filter_flatMap, List.map_flatMap]
  apply congrArg
  funext i
  rw [filter_map_pairs, range_filter_lt, List.map_map]
  rfl

theorem upperDiagonal_of_dm {l : ℚ → ℚ} {m : Matrix} {featureName : String}
    {logged : Bool} {dm : List (List ℚ)}
    (hdm : distanceMatrix l m featureName logged = .ok dm) :
    upperDiagonal l m featureName logged =
      .ok (((List.range m.taxa.length).map fun row =>
        (List.range' (row + 1) (m.taxa.length - (row + 1))).map fun col =>
          (dm.getD row []).getD col 0).flatten) := by
  rw [upperDiagonal, hdm]

theorem distanceMatrix_error_of_absent {l : ℚ → ℚ} {m : Matrix}
    {featureName : String} {logged : Bool}
    (h : featureName ∉ keysOf m.features) :
    distanceMatrix l m featureName logged = .error featureName := by
  rw [distanceMatrix, (lookup_eq_none_iff _ _).mpr h]

theorem lookup_some_of_mem_keys {t : Table} {k : String}
    (h : k ∈ keysOf t) : ∃ v, t.lookup k = some v := by
  have hne : t.lookup k ≠ none := by
    intro hnone
    exact ((lookup_eq_none_iff t k).mp hnone) h
  exact Option.ne_none_iff_exists'.mp hne

theorem upperDiagonalAsXML_ok_of_ud {l : ℚ → ℚ} {fstr : ℚ → String}
    {m : Matrix} {featureName elementName : String} {logged : Bool}
    {ud : List ℚ} (hud : upperDiagonal l m featureName logged = .ok ud) :
    upperDiagonalAsXML l fstr m featureName elementName logged =
      .ok (.element elementName none
        (ud.map fun v => .element "value" (some (fstr v)) [])) := by
  rw [upperDiagonalAsXML, hud]

theorem upperDiagonalVals_eq {l : ℚ → ℚ} {m : Matrix} {featureName : String}
    {logged : Bool} {ud : List ℚ}
    (hud : upperDiagonal l m featureName logged = .ok ud) :
    upperDiagonalVals l m featureName logged = ud := by
  rw [upperDiagonalVals, hud]

theorem processData_nil_features {parse : String → Option ℚ} :
    ∀ (rows : List (List String)) {ts : Table} {rn : Nat}
      {out : Table × Table},
      processData parse [] ts rn rows = .ok out →
      (∀ r ∈ rows, r.length = 1) ∧ out.1 = []
  | [], ts, rn, out => by
    intro h
    simp only [processData] at h
    cases h
    exact ⟨by simp, rfl⟩
  | r :: rest, ts, rn, out => by
    intro h
    simp only [processData] at h
    cases ha : addRow parse [] ts rn r with
    | error e => rw [ha] at h; cases h
    | ok o =>
      rw [ha] at h
      obtain ⟨f1, t1⟩ := o
      obtain ⟨vals, hp, hc, _, hout⟩ := addRow_ok ha
      have hr1 : r.length = 1 := by
        simp only [List.length_nil] at hc
        omega
      have hf1 : f1 = [] := by
        have : (f1, t1) = (zipAppend [] vals, _) := hout
        rw [Prod.mk.injEq] at this
        rw [this.1, zipAppend_nil]
      subst hf1
      obtain ⟨hrest, hout1⟩ := processData_nil_features rest h
      exact ⟨by
        intro q hq
        rcases List.mem_cons.mp hq with rfl | hq'
        · exact hr1
        · exact hrest q hq', hout1⟩

theorem addRow_single {parse : String → Option ℚ} {ts : Table} {rn : Nat}
    (a : String) (hnc : strTrim a ∉ keysOf ts) :
    addRow parse [] ts rn [a] = .ok ([], ts ++ [(strTrim a, [])]) := by
  rw [addRow]
  rw [if_neg (by norm_num)]
  have hb : (keysOf ts).contains (strTrim ([a].headD "")) ≠ true := by
    intro hcon
    exact hnc (by simpa using (contains_iff _ _).mp (by simpa using hcon))
  rw [if_neg hb]
  rfl

theorem processData_singles {parse : String → Option ℚ} :
    ∀ (rows : List (List String)) (ts : Table) (rn : Nat),
      (∀ r ∈ rows, r.length = 1) →
      (keysOf ts ++ rows.map fun r => strTrim (r.headD "")).Nodup →
      ∃ ts', processData parse [] ts rn rows = .ok ([], ts')
  | [], ts, rn => by
    intro _ _
    exact ⟨ts, rfl⟩
  | r :: rest, ts, rn => by
    intro hlen hnd
    obtain ⟨a, rfl⟩ := List.length_eq_one.mp (hlen r (by simp))
    have hnc : strTrim a ∉ keysOf ts := by
      intro hmem
      have hdisj := (List.nodup_append.mp hnd).2.2
      exact hdisj hmem (by simp)
    have hnd' : (keysOf (ts ++ [(strTrim a, [])]) ++
        rest.map fun r => strTrim (r.headD "")).Nodup := by
      have h1 : keysOf (ts ++ [(strTrim a, [])]) = keysOf ts ++ [strTrim a] := by
        simp [keysOf]
      rw [h1, List.append_assoc]
      simpa using hnd
    obtain ⟨ts', hts'⟩ := processData_singles rest (ts ++ [(strTrim a, [])])
      (rn + 1) (fun q hq => hlen q (by simp [hq])) hnd'
    refine ⟨ts', ?_⟩
    simp only [processData, addRow_single a hnc]
    exact hts'

theorem getD_map_lt {raw : List ℚ} {f : ℚ → ℚ} {i : Nat}
    (hi : i < raw.length) : (raw.map f).getD i 0 = f (raw.getD i 0) := by
  have h : raw[i]? = some raw[i] := by
    simp [List.getElem?_eq_some_iff, hi]
  rw [List.getD_eq_getElem?_getD, List.getElem?_map, h,
    List.getD_eq_getElem?_getD, h]
  rfl

theorem distanceMatrix_entry_g {l : ℚ → ℚ} {m : Matrix}
    {featureName : String} {logged : Bool} {dm : List (List ℚ)}
    (hdm : distanceMatrix l m featureName logged = .ok dm) :
    ∃ g : Nat → ℚ, ∀ i j, i < m.taxa.length → j < m.taxa.length →
      (dm.getD i []).getD j 0 = g i - g j := by
  rw [distanceMatrix] at hdm
  cases hlook : m.features.lookup featureName with
  | none => rw [hlook] at hdm; cases hdm
  | some raw =>
    simp only [hlook] at hdm
    set sv := if logged then raw.map (scaleVal l) else raw with hsv
    set look : String → ℚ :=
      fun t => (((keysOf m.taxa).zip sv).lookup t).getD 0 with hlookfn
    refine ⟨fun i => look ((keysOf m.taxa).getD i ""), ?_⟩
    intro i j hi hj
    have hkeyslen : (keysOf m.taxa).length = m.taxa.length := by simp [keysOf]
    have hik : i < (keysOf m.taxa).length := by omega
    have hjk : j < (keysOf m.taxa).length := by omega
    have hki : (keysOf m.taxa)[i]? = some (keysOf m.taxa)[i] := by
      simp [List.getElem?_eq_some_iff, hik]
    have hkj : (keysOf m.taxa)[j]? = some (keysOf m.taxa)[j] := by
      simp [List.getElem?_eq_some_iff, hjk]
    have hgi : (keysOf m.taxa).getD i "" = (keysOf m.taxa)[i] := by
      rw [List.getD_eq_getElem?_getD, hki]; rfl
    have hgj : (keysOf m.taxa).getD j "" = (keysOf m.taxa)[j] := by
      rw [List.getD_eq_getElem?_getD, hkj]; rfl
    have hdmeq : dm = (keysOf m.taxa).map fun t1 =>
        (keysOf m.taxa).map fun t2 => look t1 - look t2 := by
      have hx := Except.ok.inj hdm
      rw [← hx]
    have hdmi : dm.getD i [] = (keysOf m.taxa).map fun t2 =>
        look (keysOf m.taxa)[i] - look t2 := by
      rw [hdmeq, List.getD_eq_getElem?_getD, List.getElem?_map, hki]
      rfl
    rw [hdmi, List.getD_eq_getElem?_getD, List.getElem?_map, hkj]
    simp only [Option.map_some', Option.getD_some]
    rw [hgi, hgj]

/-- Claim C1: for every successfully constructed Matrix with n taxa and every
declared feature, `distanceMatrix` with `logged = false` returns an n-by-n
square matrix indexed by the taxon order recorded at construction whose
`[i][j]` entry is the feature's raw value for taxon `i` minus its raw value
for taxon `j`; in particular, on the worked example input the matrix for
feature `A` is `[[0, -2], [2, 0]]`. -/
theorem claim1_distanceMatrix_unlogged (l : ℚ → ℚ)
    (parse : String → Option ℚ) (rows : List (List String)) (m : Matrix)
    (featureName : String) (raw : List ℚ)
    (hmk : mkMatrix parse rows = .ok m)
    (hlook : m.features.lookup featureName = some raw) :
    (∃ dm, distanceMatrix l m featureName false = .ok dm ∧
      dm.length = m.taxa.length ∧
      (∀ r ∈ dm, r.length = m.taxa.length) ∧
      ∀ i j, i < m.taxa.length → j < m.taxa.length →
        (dm.getD i []).getD j 0 = raw.getD i 0 - raw.getD j 0) ∧
    mkMatrix parseFloat (splitCsv exampleCsv) = .ok exampleMatrix ∧
    distanceMatrix l exampleMatrix "A" false = .ok [[0, -2], [2, 0]] := by
  obtain ⟨⟨hndf, hndt, hflen, _, _⟩, _, _, _⟩ := mkMatrix_good hmk
  have hrawlen : raw.length = m.taxa.length :=
    hflen _ (lookup_mem _ _ _ hlook)
  obtain ⟨dm, hdm, hlen, hrows, hentry⟩ :=
    distanceMatrix_ok_entries l m featureName false raw hndt hrawlen hlook
  refine ⟨⟨dm, hdm, hlen, hrows, ?_⟩, by decide, ?_⟩
  · intro i j hi hj
    have := hentry i j hi hj
    simpa using this
  · simp [distanceMatrix, keysOf, exampleMatrix, List.lookup]
    norm_num

theorem claim1_witness :
    (∃ dm, distanceMatrix (fun v => v) exampleMatrix "A" false = .ok dm ∧
      dm.length = exampleMatrix.taxa.length ∧
      (∀ r ∈ dm, r.length = exampleMatrix.taxa.length) ∧
      ∀ i j, i < exampleMatrix.taxa.length → j < exampleMatrix.taxa.length →
        (dm.getD i []).getD j 0 =
          ([3, 5] : List ℚ).getD i 0 - ([3, 5] : List ℚ).getD j 0) ∧
    mkMatrix parseFloat (splitCsv exampleCsv) = .ok exampleMatrix ∧
    distanceMatrix (fun v => v) exampleMatrix "A" false =
      .ok [[0, -2], [2, 0]] :=
  claim1_distanceMatrix_unlogged (fun v => v) parseFloat
    (splitCsv exampleCsv) exampleMatrix "A" [3, 5] (by decide) (by decide)

/-- Claim C3: for every successfully constructed Matrix and declared feature,
`distanceMatrix` with `logged = true` scales each taxon's raw value to its
base-10 logarithm when the raw value is positive and to the fallback `0`
when the raw value is non-positive, and no error propagates from the
logarithm domain error. -/
theorem claim3_logged_fallback (l : ℚ → ℚ) (parse : String → Option ℚ)
    (rows : List (List String)) (m : Matrix) (featureName : String)
    (raw : List ℚ) (hmk : mkMatrix parse rows = .ok m)
    (hlook : m.features.lookup featureName = some raw) :
    ∃ dm, distanceMatrix l m featureName true = .ok dm ∧
      ∀ i j, i < m.taxa.length → j < m.taxa.length →
        (dm.getD i []).getD j 0 =
          (if 0 < raw.getD i 0 then l (raw.getD i 0) else 0) -
            (if 0 < raw.getD j 0 then l (raw.getD j 0) else 0) := by
  obtain ⟨⟨hndf, hndt, hflen, _, _⟩, _, _, _⟩ := mkMatrix_good hmk
  have hrawlen : raw.length = m.taxa.length :=
    hflen _ (lookup_mem _ _ _ hlook)
  obtain ⟨dm, hdm, _, _, hentry⟩ :=
    distanceMatrix_ok_entries l m featureName true raw hndt hrawlen hlook
  refine ⟨dm, hdm, ?_⟩
  intro i j hi hj
  have h := hentry i j hi hj
  rw [if_pos rfl] at h
  rw [h, getD_map_lt (by omega), getD_map_lt (by omega)]
  rfl

theorem claim3_witness :
    ∃ dm, distanceMatrix (fun v => v) exampleMatrix "A" true = .ok dm ∧
      ∀ i j, i < exampleMatrix.taxa.length → j < exampleMatrix.taxa.length →
        (dm.getD i []).getD j 0 =
          (if 0 < ([3, 5] : List ℚ).getD i 0 then ([3, 5] : List ℚ).getD i 0
            else 0) -
            (if 0 < ([3, 5] : List ℚ).getD j 0 then ([3, 5] : List ℚ).getD j 0
              else 0) :=
  claim3_logged_fallback (fun v => v) parseFloat (splitCsv exampleCsv)
    exampleMatrix "A" [3, 5] (by decide) (by decide)

/-- Claim C4: for every successfully constructed Matrix, declared feature,
logged setting and indices within the taxon count, the distance matrix is
antisymmetric (`[i][j] = -[j][i]`) and its diagonal entries are `0`. -/
theorem claim4_antisymmetry (l : ℚ → ℚ) (parse : String → Option ℚ)
    (rows : List (List String)) (m : Matrix) (featureName : String)
    (logged : Bool) (dm : List (List ℚ))
    (_hmk : mkMatrix parse rows = .ok m)
    (hdm : distanceMatrix l m featureName logged = .ok dm) :
    ∀ i j, i < m.taxa.length → j < m.taxa.length →
      (dm.getD i []).getD j 0 = -((dm.getD j []).getD i 0) ∧
        (dm.getD i []).getD i 0 = 0 := by
  obtain ⟨g, hg⟩ := distanceMatrix_entry_g hdm
  intro i j hi hj
  rw [hg i j hi hj, hg j i hj hi, hg i i hi hi]
  constructor <;> ring

theorem claim4_witness :
    (([[(3 : ℚ) - 3, 3 - 5], [5 - 3, 5 - 5]].getD 0 []).getD 1 0 =
      -(([[(3 : ℚ) - 3, 3 - 5], [5 - 3, 5 - 5]].getD 1 []).getD 0 0)) ∧
      ([[(3 : ℚ) - 3, 3 - 5], [5 - 3, 5 - 5]].getD 0 []).getD 0 0 = 0 :=
  claim4_antisymmetry (fun v => v) parseFloat (splitCsv exampleCsv)
    exampleMatrix "A" false [[3 - 3, 3 - 5], [5 - 3, 5 - 5]] (by decide) rfl
    0 1 (by decide) (by decide)

/-- Claim C2: for every successfully constructed Matrix, declared feature and
logged setting, `upperDiagonal` returns exactly the strictly-upper-triangular
entries of the distance matrix, enumerated in row-major order, and its length
is `n * (n - 1) / 2` for `n` taxa. -/
theorem claim2_upperDiagonal (l : ℚ → ℚ) (parse : String → Option ℚ)
    (rows : List (List String)) (m : Matrix) (featureName : String)
    (logged : Bool) (ud : List ℚ)
    (_hmk : mkMatrix parse rows = .ok m)
    (hud : upperDiagonal l m featureName logged = .ok ud) :
    ud.length = m.taxa.length * (m.taxa.length - 1) / 2 ∧
    ∃ dm, distanceMatrix l m featureName logged = .ok dm ∧
      ud = ((squarePairs m.taxa.length).filter fun p =>
          decide (p.1 < p.2)).map fun p => (dm.getD p.1 []).getD p.2 0 := by
  rw [upperDiagonal] at hud
  cases hdm : distanceMatrix l m featureName logged with
  | error e => rw [hdm] at hud; cases hud
  | ok dm =>
    simp only [hdm] at hud
    have hudeq : ud = ((List.range m.taxa.length).map fun row =>
        (List.range' (row + 1) (m.taxa.length - (row + 1))).map fun col =>
          (dm.getD row []).getD col 0).flatten := (Except.ok.inj hud).symm
    constructor
    · rw [hudeq, List.length_flatten, List.map_map]
      have hlens : ((List.range m.taxa.length).map
          (List.length ∘ fun row => (List.range' (row + 1)
            (m.taxa.length - (row + 1))).map fun col =>
              (dm.getD row []).getD col 0)) =
          (List.range m.taxa.length).map
            fun row => m.taxa.length - (row + 1) := by
        apply List.map_congr_left
        intro x _
        simp
      rw [hlens]
      have h2 := sum_range_desc m.taxa.length
      have h3 := sum_range_gauss m.taxa.length
      have h4 : ((List.range m.taxa.length).map fun r =>
          m.taxa.length - (r + 1)).sum * 2 =
          m.taxa.length * (m.taxa.length - 1) := by rw [h2, h3]
      omega
    · exact ⟨dm, rfl, by rw [hudeq, flatten_upper_eq]⟩

theorem claim2_witness :
    (([(3 : ℚ) - 5] : List ℚ).length =
      exampleMatrix.taxa.length * (exampleMatrix.taxa.length - 1) / 2) ∧
    ∃ dm, distanceMatrix (fun v => v) exampleMatrix "A" false = .ok dm ∧
      ([(3 : ℚ) - 5] : List ℚ) =
        ((squarePairs exampleMatrix.taxa.length).filter fun p =>
          decide (p.1 < p.2)).map fun p => (dm.getD p.1 []).getD p.2 0 :=
  claim2_upperDiagonal (fun v => v) parseFloat (splitCsv exampleCsv)
    exampleMatrix "A" false [3 - 5] (by decide) rfl

/-- Claim C5: construction fails with the `ValueError` whose message is
`No input CSV data found.` whenever zero features were declared after
processing all rows (in particular on empty input), and with the
`ValueError` whose message is `No taxa (rows) found in input CSV.` whenever
features were declared but no data rows were present (in particular on the
header-only input `A, B, C`). -/
theorem claim5_empty_checks (parse : String → Option ℚ)
    (rows : List (List String)) (fs0 fs ts : Table)
    (hh : headerFeatures rows = .ok fs0)
    (hp : processData parse fs0 [] 2 (rows.drop 1) = .ok (fs, ts)) :
    (fs = [] → mkMatrix parse rows = .error .noFeatures) ∧
    (fs ≠ [] → ts = [] → mkMatrix parse rows = .error .noTaxa) ∧
    MatrixError.noFeatures.message = "No input CSV data found." ∧
    MatrixError.noTaxa.message = "No taxa (rows) found in input CSV." ∧
    mkMatrix parseFloat (splitCsv "") = .error .noFeatures ∧
    mkMatrix parseFloat (splitCsv "A, B, C\n") = .error .noTaxa := by
  refine ⟨?_, ?_, rfl, rfl, by decide, by decide⟩
  · intro hfs
    subst hfs
    rw [mkMatrix]
    simp only [hh, hp]
    rfl
  · intro hfs hts
    subst hts
    rw [mkMatrix]
    simp only [hh, hp]
    have h1 : fs.isEmpty = false := by
      cases fs with
      | nil => exact absurd rfl hfs
      | cons a l => rfl
    simp [h1]

theorem claim5_witness :
    (([("B", []), ("C", [])] : Table) = [] →
      mkMatrix parseFloat (splitCsv "A, B, C\n") = .error .noFeatures) ∧
    (([("B", []), ("C", [])] : Table) ≠ [] → ([] : Table) = [] →
      mkMatrix parseFloat (splitCsv "A, B, C\n") = .error .noTaxa) ∧
    MatrixError.noFeatures.message = "No input CSV data found." ∧
    MatrixError.noTaxa.message = "No taxa (rows) found in input CSV." ∧
    mkMatrix parseFloat (splitCsv "") = .error .noFeatures ∧
    mkMatrix parseFloat (splitCsv "A, B, C\n") = .error .noTaxa :=
  claim5_empty_checks parseFloat (splitCsv "A, B, C\n")
    [("B", []), ("C", [])] [("B", []), ("C", [])] []
    (by decide) (by decide)

/-- Claim C6: a data row whose value-cell count differs from the declared
feature count makes construction fail with the `ValueError` reporting the
row's value-field count, the feature-header count and the 1-based row number
(counting the header as row 1); in particular the input
`Ignored, A, B, C` / `name, 3, 4, 5, 6` fails reporting row 2 with 4 value
fields against 3 feature headers. -/
theorem claim6_field_count (parse : String → Option ℚ) (fs ts : Table)
    (rn : Nat) (r : List String) (rest : List (List String))
    (hcount : ((r.length : Int) - 1) ≠ (fs.length : Int)) :
    processData parse fs ts rn (r :: rest) =
      .error (.fieldCount rn ((r.length : Int) - 1) fs.length) ∧
    (MatrixError.fieldCount rn ((r.length : Int) - 1) fs.length).message =
      "Input row " ++ toString rn ++ " contains " ++
        toString ((r.length : Int) - 1) ++
        " value fields, but there were " ++ toString fs.length ++
        " feature (column) headers" ∧
    mkMatrix parseFloat (splitCsv "Ignored, A, B, C\nname, 3, 4, 5, 6\n") =
      .error (.fieldCount 2 4 3) ∧
    (MatrixError.fieldCount 2 4 3).message =
      "Input row 2 contains 4 value fields, but there were 3 feature (column) headers" := by
  refine ⟨?_, rfl, by decide, by decide⟩
  simp only [processData]
  rw [addRow, if_pos hcount]

theorem claim6_witness :
    (processData parseFloat [] [] 2 [["name", " 1"]] =
      .error (.fieldCount 2 (((["name", " 1"] : List String).length : Int) - 1)
        ([] : Table).length)) ∧
    (MatrixError.fieldCount 2 (((["name", " 1"] : List String).length : Int) - 1)
        ([] : Table).length).message =
      "Input row " ++ toString 2 ++ " contains " ++
        toString (((["name", " 1"] : List String).length : Int) - 1) ++
        " value fields, but there were " ++ toString ([] : Table).length ++
        " feature (column) headers" ∧
    mkMatrix parseFloat (splitCsv "Ignored, A, B, C\nname, 3, 4, 5, 6\n") =
      .error (.fieldCount 2 4 3) ∧
    (MatrixError.fieldCount 2 4 3).message =
      "Input row 2 contains 4 value fields, but there were 3 feature (column) headers" :=
  claim6_field_count parseFloat [] [] 2 ["name", " 1"] [] (by decide)

/-- Claim C9: for every successfully constructed Matrix, every taxon's value
sequence has one entry per declared feature and every feature's value
sequence one entry per taxon, and the two mappings are views of the same
grid: the j-th value of the i-th taxon equals the i-th value of the j-th
feature. -/
theorem claim9_grid_views (parse : String → Option ℚ)
    (rows : List (List String)) (m : Matrix)
    (hmk : mkMatrix parse rows = .ok m) :
    (∀ p ∈ m.taxa, p.2.length = m.features.length) ∧
    (∀ p ∈ m.features, p.2.length = m.taxa.length) ∧
    ∀ (i j : Nat) (pi pj : String × List ℚ),
      m.taxa[i]? = some pi → m.features[j]? = some pj →
        pi.2[j]? = pj.2[i]? := by
  obtain ⟨⟨_, _, hflen, htlen, hgrid⟩, _, _, _⟩ := mkMatrix_good hmk
  exact ⟨htlen, hflen, hgrid⟩

theorem claim9_witness :
    (∀ p ∈ exampleMatrix.taxa, p.2.length = exampleMatrix.features.length) ∧
    (∀ p ∈ exampleMatrix.features, p.2.length = exampleMatrix.taxa.length) ∧
    ∀ (i j : Nat) (pi pj : String × List ℚ),
      exampleMatrix.taxa[i]? = some pi → exampleMatrix.features[j]? = some pj →
        pi.2[j]? = pj.2[i]? :=
  claim9_grid_views parseFloat (splitCsv exampleCsv) exampleMatrix (by decide)

/-- Claim C7: for every successfully constructed Matrix, `distanceMatrix`,
`upperDiagonal` and `upperDiagonalAsXML` fail with the keyed lookup error
carrying the offending name exactly when the feature name is not declared,
while `allFeaturesAsXML` never fails. -/
theorem claim7_unknown_feature (l : ℚ → ℚ) (fstr : ℚ → String)
    (parse : String → Option ℚ) (rows : List (List String)) (m : Matrix)
    (featureName elementName : String) (logged : Bool)
    (_hmk : mkMatrix parse rows = .ok m) :
    (featureName ∉ keysOf m.features →
      distanceMatrix l m featureName logged = .error featureName ∧
      upperDiagonal l m featureName logged = .error featureName ∧
      upperDiagonalAsXML l fstr m featureName elementName logged =
        .error featureName) ∧
    (featureName ∈ keysOf m.features →
      (∃ dm, distanceMatrix l m featureName logged = .ok dm) ∧
      (∃ ud, upperDiagonal l m featureName logged = .ok ud) ∧
      (∃ x, upperDiagonalAsXML l fstr m featureName elementName logged =
        .ok x)) ∧
    ∃ x, allFeaturesAsXML l fstr m elementName logged = .ok x := by
  refine ⟨?_, ?_, ?_⟩
  · intro habs
    have hdm := @distanceMatrix_error_of_absent l m featureName logged habs
    have hud : upperDiagonal l m featureName logged = .error featureName := by
      rw [upperDiagonal, hdm]
    refine ⟨hdm, hud, ?_⟩
    rw [upperDiagonalAsXML, hud]
  · intro hmem
    obtain ⟨raw, hlook⟩ := lookup_some_of_mem_keys hmem
    cases hdmE : distanceMatrix l m featureName logged with
    | error e =>
      rw [distanceMatrix, hlook] at hdmE
      cases hdmE
    | ok dm =>
      have hud := upperDiagonal_of_dm hdmE
      exact ⟨⟨dm, rfl⟩, ⟨_, hud⟩, ⟨_, upperDiagonalAsXML_ok_of_ud hud⟩⟩
  · have hall : ∀ p ∈ m.features, ∃ y,
        (match upperDiagonalAsXML l fstr m p.1 "feature" logged with
          | .error e => Except.error e
          | .ok child => Except.ok [XNode.comment p.1, child]) =
          Except.ok y := by
      intro p hp
      have hmem : p.1 ∈ keysOf m.features := List.mem_map_of_mem Prod.fst hp
      obtain ⟨raw, hlook⟩ := lookup_some_of_mem_keys hmem
      cases hdmE : distanceMatrix l m p.1 logged with
      | error e =>
        rw [distanceMatrix, hlook] at hdmE
        cases hdmE
      | ok dm =>
        have hud := upperDiagonal_of_dm hdmE
        rw [upperDiagonalAsXML_ok_of_ud hud]
        exact ⟨_, rfl⟩
    obtain ⟨ys, hys⟩ := exceptMap_exists_ok _ m.features hall
    refine ⟨.element elementName none ys.flatten, ?_⟩
    rw [allFeaturesAsXML, hys]

theorem claim7_witness :
    (("ZZZ" : String) ∉ keysOf exampleMatrix.features →
      distanceMatrix (fun v => v) exampleMatrix "ZZZ" true = .error "ZZZ" ∧
      upperDiagonal (fun v => v) exampleMatrix "ZZZ" true = .error "ZZZ" ∧
      upperDiagonalAsXML (fun v => v) toString exampleMatrix "ZZZ" "xxx"
        true = .error "ZZZ") ∧
    (("ZZZ" : String) ∈ keysOf exampleMatrix.features →
      (∃ dm, distanceMatrix (fun v => v) exampleMatrix "ZZZ" true = .ok dm) ∧
      (∃ ud, upperDiagonal (fun v => v) exampleMatrix "ZZZ" true = .ok ud) ∧
      (∃ x, upperDiagonalAsXML (fun v => v) toString exampleMatrix "ZZZ"
        "xxx" true = .ok x)) ∧
    ∃ x, allFeaturesAsXML (fun v => v) toString exampleMatrix "xxx" true =
      .ok x :=
  claim7_unknown_feature (fun v => v) toString parseFloat
    (splitCsv exampleCsv) exampleMatrix "ZZZ" "xxx" true (by decide)

/-- Claim C8: for every successfully constructed Matrix, `allFeaturesAsXML`
returns an element named `elementName` whose children are, per declared
feature in declaration order, a comment holding the feature's name followed
by a `feature` element whose children are one `value` element per
upper-diagonal entry, holding the string representation of the value. -/
theorem claim8_xml_tree (l : ℚ → ℚ) (fstr : ℚ → String)
    (parse : String → Option ℚ) (rows : List (List String)) (m : Matrix)
    (elementName : String) (logged : Bool)
    (hmk : mkMatrix parse rows = .ok m) :
    allFeaturesAsXML l fstr m elementName logged =
      .ok (.element elementName none
        ((m.features.map fun p => [XNode.comment p.1,
          XNode.element "feature" none
            ((upperDiagonalVals l m p.1 logged).map fun v =>
              XNode.element "value" (some (fstr v)) [])]).flatten)) := by
  obtain ⟨⟨hndf, _, _, _, _⟩, _, _, _⟩ := mkMatrix_good hmk
  have hall : ∀ p ∈ m.features,
      (match upperDiagonalAsXML l fstr m p.1 "feature" logged with
        | .error e => Except.error e
        | .ok child => Except.ok [XNode.comment p.1, child]) =
        Except.ok [XNode.comment p.1,
          XNode.element "feature" none
            ((upperDiagonalVals l m p.1 logged).map fun v =>
              XNode.element "value" (some (fstr v)) [])] := by
    intro p hp
    have hlook : m.features.lookup p.1 = some p.2 :=
      mem_lookup_nodup _ _ _ hndf (by simpa using hp)
    cases hdmE : distanceMatrix l m p.1 logged with
    | error e =>
      rw [distanceMatrix, hlook] at hdmE
      cases hdmE
    | ok dm =>
      have hud := upperDiagonal_of_dm hdmE
      simp only [upperDiagonalAsXML_ok_of_ud hud, upperDiagonalVals_eq hud]
  have hex := exceptMap_ok_of_forall _ _ m.features hall
  rw [allFeaturesAsXML, hex]

theorem claim8_witness :
    allFeaturesAsXML (fun v => v) toString exampleMatrix "xxx" false =
      .ok (.element "xxx" none
        ((exampleMatrix.features.map fun p => [XNode.comment p.1,
          XNode.element "feature" none
            ((upperDiagonalVals (fun v => v) exampleMatrix p.1 false).map
              fun v => XNode.element "value" (some (toString v)) [])]).flatten)) :=
  claim8_xml_tree (fun v => v) toString parseFloat (splitCsv exampleCsv)
    exampleMatrix "xxx" false (by decide)

theorem addFeatures_error_shape :
    ∀ (names : List String) (acc : Table) (e : MatrixError),
      addFeatures acc names = .error e → ∃ n, e = .dupFeature n
  | [], acc, e => by simp [addFeatures]
  | n :: rest, acc, e => by
    intro h
    simp only [addFeatures] at h
    by_cases hc : (keysOf acc).contains n = true
    · rw [if_pos hc] at h
      cases h
      exact ⟨n, rfl⟩
    · rw [if_neg hc] at h
      exact addFeatures_error_shape rest (acc ++ [(n, [])]) e h

theorem processData_error_shape {parse : String → Option ℚ} :
    ∀ (rows : List (List String)) {fs ts : Table} {rn : Nat}
      {e : MatrixError},
      processData parse fs ts rn rows = .error e →
      (∃ a b c, e = .fieldCount a b c) ∨ (∃ n, e = .dupTaxon n) ∨
        (∃ s, e = .parseFail s)
  | [], fs, ts, rn, e => by
    intro h
    simp only [processData] at h
    cases h
  | r :: rest, fs, ts, rn, e => by
    intro h
    simp only [processData] at h
    cases ha : addRow parse fs ts rn r with
    | error e' =>
      rw [ha] at h
      cases h
      exact addRow_error_shape ha
    | ok o =>
      rw [ha] at h
      obtain ⟨f1, t1⟩ := o
      exact processData_error_shape rest h

theorem processData_keys {parse : String → Option ℚ} :
    ∀ (rows : List (List String)) {fs ts fs' ts' : Table} {rn : Nat},
      processData parse fs ts rn rows = .ok (fs', ts') →
      keysOf fs' = keysOf fs
  | [], fs, ts, fs', ts', rn => by
    intro h
    simp only [processData] at h
    cases h
    rfl
  | r :: rest, fs, ts, fs', ts', rn => by
    intro h
    simp only [processData] at h
    cases ha : addRow parse fs ts rn r with
    | error e => rw [ha] at h; cases h
    | ok o =>
      rw [ha] at h
      obtain ⟨f1, t1⟩ := o
      obtain ⟨vals, _, _, _, hout⟩ := addRow_ok ha
      rw [Prod.mk.injEq] at hout
      have h1 : keysOf f1 = keysOf fs := by
        rw [hout.1, zipAppend_keys]
      exact (processData_keys rest h).trans h1

/-- Claim C10: when the header declares zero features, data rows are still
validated against the zero feature count, so a data row with one or more
value cells fails with the field-count `ValueError`; when every data row is
a single taxon-name cell, construction instead fails with the
`No input CSV data found.` error even though data rows were present, because
the zero-features check runs before the zero-taxa check. -/
theorem claim10_zero_features (parse : String → Option ℚ) :
    (∀ (ts : Table) (rn : Nat) (r : List String) (rest : List (List String)),
      2 ≤ r.length →
      processData parse [] ts rn (r :: rest) =
        .error (.fieldCount rn ((r.length : Int) - 1) 0)) ∧
    (∀ (rows : List (List String)), mkMatrix parse rows = .error .noFeatures →
      ∀ r ∈ rows.drop 1, r.length = 1) ∧
    (∀ (header : List String) (dataRows : List (List String)),
      header.length ≤ 1 → dataRows ≠ [] →
      (∀ r ∈ dataRows, r.length = 1) →
      (dataRows.map fun r => strTrim (r.headD "")).Nodup →
      mkMatrix parse (header :: dataRows) = .error .noFeatures) := by
  refine ⟨?_, ?_, ?_⟩
  · intro ts rn r rest hlen
    have hcount : ((r.length : Int) - 1) ≠ ((([] : Table)).length : Int) := by
      simp only [List.length_nil]
      omega
    simp only [processData]
    rw [addRow, if_pos hcount]
    rfl
  · intro rows h
    rw [mkMatrix] at h
    cases hh : headerFeatures rows with
    | error e =>
      rw [hh] at h
      cases h
      have : ∃ n, MatrixError.noFeatures = .dupFeature n := by
        cases rows with
        | nil => simp [headerFeatures] at hh
        | cons header rest => exact addFeatures_error_shape _ _ _ hh
      obtain ⟨n, hn⟩ := this
      cases hn
    | ok fs0 =>
      simp only [hh] at h
      cases hp : processData parse fs0 [] 2 (rows.drop 1) with
      | error e =>
        rw [hp] at h
        cases h
        rcases processData_error_shape _ hp with ⟨a, b, c, hn⟩ | ⟨n, hn⟩ | ⟨s, hn⟩ <;>
          cases hn
      | ok o =>
        simp only [hp] at h
        obtain ⟨fs, ts⟩ := o
        by_cases hfe : fs.isEmpty = true
        · have hfs : fs = [] := by simpa using hfe
          subst hfs
          have hfs0 : fs0 = [] := by
            have hk := processData_keys _ hp
            simp only [keysOf, List.map_nil] at hk
            cases fs0 with
            | nil => rfl
            | cons a l => simp [keysOf] at hk
          subst hfs0
          exact (processData_nil_features _ hp).1
        · rw [if_neg hfe] at h
          by_cases hte : ts.isEmpty = true
          · rw [if_pos hte] at h
            cases h
          · rw [if_neg hte] at h
            cases h
  · intro header dataRows hhead _hne hsingles hnd
    have hdrop : header.drop 1 = [] := List.drop_eq_nil_of_le hhead
    have hh : headerFeatures (header :: dataRows) = .ok [] := by
      simp only [headerFeatures, hdrop]
      rfl
    obtain ⟨ts', hts'⟩ := @processData_singles parse dataRows [] 2
      hsingles (by simpa [keysOf] using hnd)
    rw [mkMatrix]
    simp only [hh, List.drop_succ_cons, List.drop_zero, hts']
    rfl

theorem claim10_witness :
    (processData parseFloat [] [] 2 [["name", " 1"]] =
      .error (.fieldCount 2
        (((["name", " 1"] : List String).length : Int) - 1) 0)) ∧
    (∀ r ∈ ([["Head"], ["t1"], ["t2"]] : List (List String)).drop 1,
      r.length = 1) ∧
    mkMatrix parseFloat [["Head"], ["t1"], ["t2"]] = .error .noFeatures := by
  have h := claim10_zero_features parseFloat
  refine ⟨?_, ?_, ?_⟩
  · exact h.1 [] 2 ["name", " 1"] [] (by decide)
  · exact h.2.1 [["Head"], ["t1"], ["t2"]] (by decide)
  · exact h.2.2 ["Head"] [["t1"], ["t2"]] (by decide) (by decide) (by decide)
      (by decide)

end Cbeast
